import Mathlib

/-!
Shallow embedding of the iteration scheduler of
`src/egs/wsj/s5/steps/nnet3/train_raw_rnn.py` (a Python 2 script: `/` on
integers is floor division, `float` arithmetic is modelled here by exact
rationals, `int()` truncates toward zero).

External collaborators (the trainer primitive, saturation diagnostic,
report generation, mail delivery) are modelled as oracles / emitted events;
the scheduler's own arithmetic and control flow are translated directly
from the source.
-/

namespace TrainRawRnn

/-- Python `int()` applied to a (rational-modelled) float: truncation
toward zero. -/
def pyInt (q : ℚ) : ℤ := if q < 0 then ⌈q⌉ else ⌊q⌋

/-- Rounding to nearest integer with ties (exact .5) rounding up, the
convention the spec describes. -/
def roundHalfUp (q : ℚ) : ℤ := ⌊q + 1 / 2⌋

/-- `num_archives_to_process = args.num_epochs * num_archives` (line 354). -/
def num_archives_to_process (numEpochs numArchives : ℕ) : ℕ :=
  numEpochs * numArchives

/-- `num_iters = (num_archives_to_process * 2) / (args.num_jobs_initial +
args.num_jobs_final)` (lines 356-357).  Python 2 `/` on nonnegative
integers is floor division, i.e. `Nat` division. -/
def num_iters (numEpochs numArchives numJobsInitial numJobsFinal : ℕ) : ℕ :=
  (num_archives_to_process numEpochs numArchives * 2)
    / (numJobsInitial + numJobsFinal)

/-- `current_num_jobs = int(0.5 + args.num_jobs_initial +
(args.num_jobs_final - args.num_jobs_initial) * float(iter) / num_iters)`
(lines 387-389), float arithmetic modelled by exact rationals. -/
def current_num_jobs (numJobsInitial numJobsFinal : ℤ) (iter numIters : ℕ) :
    ℤ :=
  pyInt ((1 / 2 : ℚ) + numJobsInitial
    + ((numJobsFinal : ℚ) - numJobsInitial) * iter / numIters)

/-- Lines 394-402: `shrinkage_value = 1.0`, overwritten when
`args.shrink_value != 1.0` by `shrink_value if do_shrinkage(...) else 1`.
The external saturation check `common_train_lib.do_shrinkage` is an oracle
Boolean `doShrink`; the second component records whether that external
call was made. -/
def shrinkage_value (shrinkValue : ℚ) (doShrink : Bool) : ℚ × Bool :=
  if shrinkValue ≠ 1 then
    ((if doShrink then shrinkValue else 1), true)
  else
    (1, false)

/-- Lines 373-378: `min_deriv_time`/`max_deriv_time` are `None` unless
`args.deriv_truncate_margin is not None`, in which case
`min = -margin - model_left_context` and
`max = chunk_width - 1 + margin + model_right_context`. -/
def deriv_time_window (derivTruncateMargin : Option ℤ)
    (chunkWidth modelLeftContext modelRightContext : ℤ) :
    Option ℤ × Option ℤ :=
  match derivTruncateMargin with
  | none => (none, none)
  | some margin =>
    (some (-margin - modelLeftContext),
     some (chunkWidth - 1 + margin + modelRightContext))

/-- Lines 175-184 of `process_args`: when the deprecated
`--trainer.rnn.num-bptt-steps` is supplied, `args.deriv_truncate_margin`
is overwritten with `num_bptt_steps - chunk_width - 2` and a warning is
logged (second component); otherwise the configured margin is kept and no
warning is emitted.  This runs once, before `train` is entered. -/
def process_args_deriv_margin (numBpttSteps : Option ℤ)
    (chunkWidth derivTruncateMargin : ℤ) : ℤ × Bool :=
  match numBpttSteps with
  | some btSteps => (btSteps - chunkWidth - 2, true)
  | none => (derivTruncateMargin, false)

/-- The configuration fields of `args`/derived variables that the training
loop (lines 383-488) reads.  `reportAt iter` abstracts the test
`iter % reporting_iter_interval == 0` (line 444) and `doShrink iter` the
external `common_train_lib.do_shrinkage` call (lines 397-400). -/
structure TrainConfig where
  numJobsInitial : ℤ
  numJobsFinal : ℤ
  numIters : ℕ
  stage : ℤ
  exitStage : Option ℤ
  cleanup : Bool
  email : Bool
  includeLogSoftmax : Bool
  shrinkValue : ℚ
  reportAt : ℕ → Bool
  doShrink : ℕ → Bool

/-- Observable external effects of `train` (each corresponds to one
external call in the source). -/
inductive Event where
  | trainOneIteration (iter : ℕ) (numJobs : ℤ) (archivesProcessed : ℤ)
      (shrinkage : ℚ)
  | removeModel (iter : ℤ)
  | sendReport (iter : ℕ)
  | combineModels
  | computeAveragePosterior
  | cleanNnetDir
  deriving DecidableEq

/-- External calls made by the guarded per-iteration body
(lines 391-451), in source order: the `train_one_iteration` dispatch,
then `remove_model iter-2` when cleanup is enabled, then the mail report
when an email address is configured and the reporting test fires. -/
def iter_body_events (cfg : TrainConfig) (iter : ℕ)
    (numArchivesProcessed : ℤ) : List Event :=
  [Event.trainOneIteration iter
      (current_num_jobs cfg.numJobsInitial cfg.numJobsFinal iter cfg.numIters)
      numArchivesProcessed
      (shrinkage_value cfg.shrinkValue (cfg.doShrink iter)).1]
  ++ (if cfg.cleanup then [Event.removeModel ((iter : ℤ) - 2)] else [])
  ++ (if cfg.email && cfg.reportAt iter then [Event.sendReport iter] else [])

/-- Result of running the `for iter in range(num_iters)` loop:
`archivesProcessed` is the final `num_archives_processed`, `events` the
external calls made, and `earlyExit` records whether the `--exit-stage`
`return` (lines 384-386) fired. -/
structure LoopResult where
  archivesProcessed : ℤ
  events : List Event
  earlyExit : Bool
  deriving DecidableEq

/-- The loop of lines 383-453, processing iterations
`iter, iter+1, …, iter+remaining-1`: first the `exit_stage` check, then
`current_num_jobs`, then the body guarded by `args.stage <= iter`, and
finally — outside that guard — `num_archives_processed += current_num_jobs`. -/
def train_loop (cfg : TrainConfig) :
    ℕ → ℕ → ℤ → List Event → LoopResult
  | _, 0, nap, evs => ⟨nap, evs, false⟩
  | iter, remaining + 1, nap, evs =>
    if cfg.exitStage = some (iter : ℤ) then ⟨nap, evs, true⟩
    else
      train_loop cfg (iter + 1) remaining
        (nap + current_num_jobs cfg.numJobsInitial cfg.numJobsFinal iter
          cfg.numIters)
        (if cfg.stage ≤ (iter : ℤ) then evs ++ iter_body_events cfg iter nap
         else evs)

/-- External calls after the loop (lines 455-488): model combination when
`args.stage <= num_iters`, average-posterior estimation when the network
includes a log-softmax and `args.stage <= num_iters + 1`, and directory
cleanup whenever `args.cleanup` is set (no stage test in the source). -/
def post_loop_events (cfg : TrainConfig) : List Event :=
  (if cfg.stage ≤ (cfg.numIters : ℤ) then [Event.combineModels] else [])
  ++ (if cfg.includeLogSoftmax ∧ cfg.stage ≤ (cfg.numIters : ℤ) + 1 then
        [Event.computeAveragePosterior]
      else [])
  ++ (if cfg.cleanup then [Event.cleanNnetDir] else [])

/-- The whole of `train` from the top of the loop on: run the loop from
iteration 0 with `num_archives_processed = 0`; the `--exit-stage` return
skips everything after the loop. -/
def train_run (cfg : TrainConfig) : LoopResult :=
  let r := train_loop cfg 0 cfg.numIters 0 []
  if r.earlyExit then r
  else { r with events := r.events ++ post_loop_events cfg }

/-- Sum of `current_num_jobs` over iterations `0, …, k-1`; the value
`num_archives_processed` holds when the loop has completed `k` iterations. -/
def jobs_sum (numJobsInitial numJobsFinal : ℤ) (numIters : ℕ) : ℕ → ℤ
  | 0 => 0
  | k + 1 => jobs_sum numJobsInitial numJobsFinal numIters k
      + current_num_jobs numJobsInitial numJobsFinal k numIters

/-- Top-level effects of `main` (lines 503-517). -/
inductive TopEvent where
  | notifyFailure
  | stopJobs
  | ensureProcessesDone
  deriving DecidableEq

/-- `main` (lines 503-517): on success `ensure_processes_are_done` runs; on
a failure `err` raised inside `train`, the handler sends a failure mail
when an email address is configured, calls
`background_process_handler.stop()`, and re-raises the original `err`.
Modelled from the spec: `common_lib.send_mail` (the `Notify` collaborator,
spec §6) is best-effort external delivery and never raises, so the
handler always reaches `stop()` and `raise e`. -/
def main_run (email : Bool) (trainFailure : Option ℕ) :
    List TopEvent × Option ℕ :=
  match trainFailure with
  | none => ([TopEvent.ensureProcessesDone], none)
  | some err =>
    ((if email then [TopEvent.notifyFailure] else []) ++ [TopEvent.stopJobs],
     some err)

/-- Evaluation helper: Python `int()` of a nonnegative rational bounded in
`[z, z+1)` is `z`. -/
lemma pyInt_eq_of (q : ℚ) (z : ℤ) (h0 : 0 ≤ q) (h1 : (z : ℚ) ≤ q)
    (h2 : q < z + 1) : pyInt q = z := by
  unfold pyInt
  rw [if_neg (not_lt.2 h0)]
  exact Int.floor_eq_iff.2 ⟨h1, h2⟩

/-- When the initial and final job counts are both 1, every iteration uses
one job: the interpolation formula evaluates to `int(1.5) = 1`. -/
lemma current_num_jobs_one_one (i n : ℕ) : current_num_jobs 1 1 i n = 1 := by
  unfold current_num_jobs
  have h : ((1 : ℚ) / 2 + ((1 : ℤ) : ℚ)
      + (((1 : ℤ) : ℚ) - ((1 : ℤ) : ℚ)) * i / n) = 3 / 2 := by
    push_cast; ring
  rw [h]
  exact pyInt_eq_of _ 1 (by norm_num) (by norm_num) (by norm_num)

/-- C1 fails on the code: `num_iters` is computed with Python 2 integer
floor division, not round-to-nearest, and it can be `0`.  At
`numEpochs = numArchives = 1`, `numJobsInitial = 1`, `numJobsFinal = 2`,
the code yields `⌊2/3⌋ = 0`, while rounding `2/3` to the nearest integer
yields `1`, and `numIters ≥ 1` also fails. -/
theorem claim_C1_counterexample :
    num_iters 1 1 1 2 = 0
      ∧ roundHalfUp ((2 * 1 * 1 : ℚ) / (1 + 2)) = 1
      ∧ ¬ (1 ≤ num_iters 1 1 1 2) := by
  refine ⟨by decide, ?_, by decide⟩
  unfold roundHalfUp
  exact Int.floor_eq_iff.2 (by norm_num)

/-- C1 amended: for all positive `numEpochs, numArchives, numJobsInitial,
numJobsFinal`, the iteration count computed before the training loop
equals `⌊2·numEpochs·numArchives / (numJobsInitial + numJobsFinal)⌋`
(floor, not round-to-nearest), and it is at least 1 exactly when
`numJobsInitial + numJobsFinal ≤ 2·numEpochs·numArchives`. -/
theorem claim_C1_amended (e a ji jf : ℕ) (he : 0 < e) (ha : 0 < a)
    (hji : 0 < ji) (hjf : 0 < jf) :
    (num_iters e a ji jf : ℤ)
        = ⌊((2 * e * a : ℕ) : ℚ) / ((ji + jf : ℕ) : ℚ)⌋
      ∧ (1 ≤ num_iters e a ji jf ↔ ji + jf ≤ 2 * e * a) := by
  constructor
  · have h := Rat.floor_intCast_div_natCast ((2 * e * a : ℕ) : ℤ) (ji + jf)
    rw [show (((2 * e * a : ℕ) : ℚ)) = (((2 * e * a : ℕ) : ℤ) : ℚ) by
      push_cast; ring] at *
    rw [h]
    unfold num_iters num_archives_to_process
    rw [Int.natCast_div]
    congr 1
    push_cast; ring
  · unfold num_iters num_archives_to_process
    rw [Nat.one_le_div_iff (by omega), show e * a * 2 = 2 * e * a from by ring]

/-- Witness for `claim_C1_amended` at `e = a = ji = jf = 1`. -/
theorem claim_C1_amended_witness :
    (num_iters 1 1 1 1 : ℤ)
        = ⌊((2 * 1 * 1 : ℕ) : ℚ) / ((1 + 1 : ℕ) : ℚ)⌋
      ∧ (1 ≤ num_iters 1 1 1 1 ↔ 1 + 1 ≤ 2 * 1 * 1) :=
  claim_C1_amended 1 1 1 1 (by decide) (by decide) (by decide) (by decide)

/-- C2: for `numJobsInitial, numJobsFinal ≥ 1`, `numIters > 0` and every
`iter ≤ numIters`, the per-iteration job count equals
`round(numJobsInitial + (numJobsFinal − numJobsInitial)·iter/numIters)`
with ties (.5) rounding up; it equals `numJobsInitial` at `iter = 0` and
`numJobsFinal` at `iter = numIters`; and in the scenario `numEpochs = 2`,
`numArchives = 10`, `numJobsInitial = 1`, `numJobsFinal = 2` we get
`numIters = 13` and iteration 6 uses 1 job.  (Python float arithmetic is
modelled by exact rationals.) -/
theorem claim_C2 (ji jf : ℤ) (nI : ℕ) (hji : 1 ≤ ji) (hjf : 1 ≤ jf)
    (hnI : 0 < nI) :
    (∀ iter : ℕ, iter ≤ nI →
        current_num_jobs ji jf iter nI
          = roundHalfUp ((ji : ℚ) + ((jf : ℚ) - (ji : ℚ)) * (iter : ℚ) / nI))
      ∧ current_num_jobs ji jf 0 nI = ji
      ∧ current_num_jobs ji jf nI nI = jf
      ∧ num_iters 2 10 1 2 = 13
      ∧ current_num_jobs 1 2 6 13 = 1 := by
  have hjiQ : (1 : ℚ) ≤ (ji : ℚ) := by exact_mod_cast hji
  have hjfQ : (1 : ℚ) ≤ (jf : ℚ) := by exact_mod_cast hjf
  have hnQ : (0 : ℚ) < (nI : ℚ) := by exact_mod_cast hnI
  refine ⟨?_, ?_, ?_, by decide, ?_⟩
  · intro iter hiter
    have ht0 : (0 : ℚ) ≤ (iter : ℚ) / nI := by positivity
    have ht1 : (iter : ℚ) / nI ≤ 1 := by
      rw [div_le_one hnQ]
      exact_mod_cast hiter
    have hkey : (1 : ℚ) ≤ (ji : ℚ) + ((jf : ℚ) - ji) * ((iter : ℚ) / nI) := by
      nlinarith [mul_nonneg (sub_nonneg.2 ht1) (sub_nonneg.2 hjiQ),
        mul_nonneg ht0 (sub_nonneg.2 hjfQ)]
    have hform : ((jf : ℚ) - ji) * (iter : ℚ) / nI
        = ((jf : ℚ) - ji) * ((iter : ℚ) / nI) := mul_div_assoc _ _ _
    unfold current_num_jobs roundHalfUp pyInt
    rw [if_neg (not_lt.2 (by rw [hform] at *; linarith))]
    congr 1
    ring
  · have h : ((1 : ℚ) / 2 + (ji : ℚ)
        + ((jf : ℚ) - (ji : ℚ)) * ((0 : ℕ) : ℚ) / nI) = (ji : ℚ) + 1 / 2 := by
      push_cast; ring
    unfold current_num_jobs
    rw [h]
    exact pyInt_eq_of _ ji (by linarith) (by linarith) (by linarith)
  · have h : ((1 : ℚ) / 2 + (ji : ℚ)
        + ((jf : ℚ) - (ji : ℚ)) * ((nI : ℕ) : ℚ) / nI) = (jf : ℚ) + 1 / 2 := by
      field_simp
      ring
    unfold current_num_jobs
    rw [h]
    exact pyInt_eq_of _ jf (by linarith) (by linarith) (by linarith)
  · have h : ((1 : ℚ) / 2 + ((1 : ℤ) : ℚ)
        + (((2 : ℤ) : ℚ) - ((1 : ℤ) : ℚ)) * ((6 : ℕ) : ℚ) / ((13 : ℕ) : ℚ))
        = 51 / 26 := by norm_num
    unfold current_num_jobs
    rw [h]
    exact pyInt_eq_of _ 1 (by norm_num) (by norm_num) (by norm_num)

/-- Witness for `claim_C2` at `numJobsInitial = 1`, `numJobsFinal = 2`,
`numIters = 13`: the two boundary values. -/
theorem claim_C2_witness :
    current_num_jobs 1 2 0 13 = 1 ∧ current_num_jobs 1 2 13 13 = 2 :=
  ⟨(claim_C2 1 2 13 (by decide) (by decide) (by decide)).2.1,
   (claim_C2 1 2 13 (by decide) (by decide) (by decide)).2.2.1⟩

/-- C5: with a margin set, the backpropagation window computed before the
loop is exactly `(−margin − modelLeftContext,
chunkWidth − 1 + margin + modelRightContext)`; with the margin unset both
bounds are unset; and `(chunkWidth, margin, leftCtx, rightCtx) =
(20, 8, 10, 10)` gives `(−18, 37)`. -/
theorem claim_C5 (m cw l r : ℤ) :
    deriv_time_window (some m) cw l r
        = (some (-m - l), some (cw - 1 + m + r))
      ∧ deriv_time_window none cw l r = (none, none)
      ∧ deriv_time_window (some 8) 20 10 10 = (some (-18), some 37) := by
  refine ⟨rfl, rfl, ?_⟩
  unfold deriv_time_window
  norm_num

/-- C6: when the configured shrink factor is `1.0` the shrinkage value is
`1.0` and the external saturation check is not invoked (second component
`false`); otherwise the value is the configured factor when the check
succeeds and `1.0` when it does not, and the check is invoked. -/
theorem claim_C6 (v : ℚ) (d : Bool) :
    shrinkage_value 1 d = (1, false)
      ∧ (v ≠ 1 → shrinkage_value v d = ((if d then v else 1), true)) := by
  constructor
  · unfold shrinkage_value
    simp
  · intro hv
    unfold shrinkage_value
    rw [if_pos hv]

/-- Witness for `claim_C6` at shrink factor `99/100` (the script's default
`0.99`) with a failing saturation check, and at factor `1`. -/
theorem claim_C6_witness :
    shrinkage_value 1 true = (1, false)
      ∧ shrinkage_value (99 / 100) false
          = ((if false then (99 / 100 : ℚ) else 1), true) :=
  ⟨(claim_C6 (99 / 100) true).1, (claim_C6 (99 / 100) false).2 (by norm_num)⟩

/-- C8: when the deprecated bptt-steps parameter is supplied, the
derivative-truncation margin is overwritten with
`btSteps − chunkWidth − 2` and a warning is emitted; when it is absent the
configured margin is kept and no warning is emitted.  This happens in
`process_args`, before `train` (and hence the loop) is entered. -/
theorem claim_C8 (b cw m : ℤ) :
    process_args_deriv_margin (some b) cw m = (b - cw - 2, true)
      ∧ process_args_deriv_margin none cw m = (m, false) :=
  ⟨rfl, rfl⟩

/-- C9: when `train` raises an unhandled failure, the top level sends a
failure notification exactly when an email address is configured,
instructs the background-process supervisor to stop, and re-raises the
original failure (the second component is the original error, never
`none`); a successful run returns no error. -/
theorem claim_C9 (email : Bool) (err : ℕ) :
    (main_run email (some err)).2 = some err
      ∧ TopEvent.stopJobs ∈ (main_run email (some err)).1
      ∧ (TopEvent.notifyFailure ∈ (main_run email (some err)).1 ↔ email = true)
      ∧ (main_run email none).2 = none := by
  unfold main_run
  refine ⟨rfl, ?_, ?_, rfl⟩
  · simp
  · cases email <;> simp

/-- The same configuration with the `--exit-stage` option cleared. -/
def noExit (cfg : TrainConfig) : TrainConfig := { cfg with exitStage := none }

/-- With no exit stage configured the loop never takes the early return. -/
lemma train_loop_earlyExit_false (cfg : TrainConfig)
    (h : cfg.exitStage = none) :
    ∀ (remaining iter : ℕ) (nap : ℤ) (evs : List Event),
      (train_loop cfg iter remaining nap evs).earlyExit = false
  | 0, iter, nap, evs => rfl
  | remaining + 1, iter, nap, evs => by
    rw [train_loop, if_neg (by simp [h])]
    exact train_loop_earlyExit_false cfg h remaining (iter + 1) _ _

/-- With no exit stage configured, the loop adds the job count of every
processed iteration to `num_archives_processed` — the stage guard is
irrelevant, because the `+= current_num_jobs` advance sits outside it
(line 453). -/
lemma train_loop_archives (cfg : TrainConfig) (h : cfg.exitStage = none) :
    ∀ (remaining iter : ℕ) (nap : ℤ) (evs : List Event),
      (train_loop cfg iter remaining nap evs).archivesProcessed
        = nap + (jobs_sum cfg.numJobsInitial cfg.numJobsFinal cfg.numIters
              (iter + remaining)
            - jobs_sum cfg.numJobsInitial cfg.numJobsFinal cfg.numIters iter)
  | 0, iter, nap, evs => by simp [train_loop]
  | remaining + 1, iter, nap, evs => by
    rw [train_loop, if_neg (by simp [h])]
    rw [train_loop_archives cfg h remaining (iter + 1) _ _]
    have hS : jobs_sum cfg.numJobsInitial cfg.numJobsFinal cfg.numIters
        (iter + 1)
        = jobs_sum cfg.numJobsInitial cfg.numJobsFinal cfg.numIters iter
          + current_num_jobs cfg.numJobsInitial cfg.numJobsFinal iter
              cfg.numIters := rfl
    rw [show iter + 1 + remaining = iter + (remaining + 1) from by omega, hS]
    ring

/-- What is true of every external call the loop body can emit: it belongs
to an iteration not skipped by `args.stage`, and a training dispatch at
iteration `i` carries exactly the interpolated job count, the cumulative
`num_archives_processed` of iterations `0..i-1`, and the computed
shrinkage value. -/
def loop_event_ok (cfg : TrainConfig) : Event → Prop
  | Event.trainOneIteration i jn nap sv =>
      cfg.stage ≤ (i : ℤ)
      ∧ jn = current_num_jobs cfg.numJobsInitial cfg.numJobsFinal i cfg.numIters
      ∧ nap = jobs_sum cfg.numJobsInitial cfg.numJobsFinal cfg.numIters i
      ∧ sv = (shrinkage_value cfg.shrinkValue (cfg.doShrink i)).1
  | Event.removeModel k =>
      cfg.cleanup = true ∧ ∃ i : ℕ, cfg.stage ≤ (i : ℤ) ∧ k = (i : ℤ) - 2
  | Event.sendReport i =>
      cfg.stage ≤ (i : ℤ) ∧ cfg.email = true ∧ cfg.reportAt i = true
  | _ => False

/-- Every event the loop appends satisfies `loop_event_ok`, provided the
accumulator already does and the running counter is the sum of the job
counts of the already-finished iterations. -/
lemma train_loop_events_ok (cfg : TrainConfig) :
    ∀ (remaining iter : ℕ) (evs : List Event),
      (∀ ev ∈ evs, loop_event_ok cfg ev) →
      ∀ ev ∈ (train_loop cfg iter remaining
          (jobs_sum cfg.numJobsInitial cfg.numJobsFinal cfg.numIters iter)
          evs).events,
        loop_event_ok cfg ev
  | 0, iter, evs, hevs => by
    simpa [train_loop] using hevs
  | remaining + 1, iter, evs, hevs => by
    rw [train_loop]
    by_cases hex : cfg.exitStage = some (iter : ℤ)
    · rw [if_pos hex]
      exact hevs
    · rw [if_neg hex]
      have hstep :
          jobs_sum cfg.numJobsInitial cfg.numJobsFinal cfg.numIters iter
            + current_num_jobs cfg.numJobsInitial cfg.numJobsFinal iter
                cfg.numIters
          = jobs_sum cfg.numJobsInitial cfg.numJobsFinal cfg.numIters
              (iter + 1) := rfl
      rw [hstep]
      refine train_loop_events_ok cfg remaining (iter + 1) _ ?_
      intro ev hev
      by_cases hst : cfg.stage ≤ (iter : ℤ)
      · rw [if_pos hst] at hev
        rcases List.mem_append.1 hev with hold | hnew
        · exact hevs ev hold
        · unfold iter_body_events at hnew
          rcases List.mem_append.1 hnew with hnew' | hrep
          · rcases List.mem_append.1 hnew' with htr | hrm
            · rcases List.mem_singleton.1 htr with rfl
              exact ⟨hst, rfl, rfl, rfl⟩
            · rcases hcl : cfg.cleanup with _ | _
              · rw [hcl] at hrm; simp at hrm
              · rw [hcl] at hrm
                rcases List.mem_singleton.1 (by simpa using hrm) with rfl
                exact ⟨hcl, iter, hst, rfl⟩
          · by_cases hem : (cfg.email && cfg.reportAt iter) = true
            · rw [if_pos hem] at hrep
              rcases List.mem_singleton.1 hrep with rfl
              simp only [Bool.and_eq_true] at hem
              exact ⟨hst, hem.1, hem.2⟩
            · rw [if_neg hem] at hrep
              simp at hrep
      · rw [if_neg hst] at hev
        exact hevs ev hev

/-- Every event of a full run is either a loop-body event satisfying
`loop_event_ok` or one of the three post-loop calls. -/
lemma train_run_events_ok (cfg : TrainConfig) :
    ∀ ev ∈ (train_run cfg).events,
      loop_event_ok cfg ev ∨ ev ∈ post_loop_events cfg := by
  intro ev hev
  unfold train_run at hev
  have hloop := train_loop_events_ok cfg cfg.numIters 0 []
    (by intro ev h; simp at h)
  by_cases hexit : (train_loop cfg 0 cfg.numIters 0 []).earlyExit = true
  · rw [if_pos hexit] at hev
    exact Or.inl (hloop ev hev)
  · rw [if_neg hexit] at hev
    rcases List.mem_append.1 hev with h1 | h2
    · exact Or.inl (hloop ev h1)
    · exact Or.inr h2

/-- Membership in a conditionally-emitted single call. -/
lemma mem_ite_singleton {α : Type} (c : Prop) [Decidable c] (x ev : α) :
    ev ∈ (if c then [x] else []) ↔ ev = x ∧ c := by
  split_ifs with h <;> simp [h]

/-- Membership in the post-loop block, phase by phase. -/
lemma mem_post_loop_events (cfg : TrainConfig) (ev : Event) :
    ev ∈ post_loop_events cfg ↔
      (ev = Event.combineModels ∧ cfg.stage ≤ (cfg.numIters : ℤ))
      ∨ (ev = Event.computeAveragePosterior
          ∧ (cfg.includeLogSoftmax = true
             ∧ cfg.stage ≤ (cfg.numIters : ℤ) + 1))
      ∨ (ev = Event.cleanNnetDir ∧ cfg.cleanup = true) := by
  unfold post_loop_events
  simp only [List.mem_append, mem_ite_singleton]
  tauto

/-- When the exit stage `e` lies inside the window of iterations still to
run, the loop behaves exactly like the exit-free loop truncated to the
iterations before `e`, with the early-return flag set: the `return` fires
before any part of iteration `e` (before `current_num_jobs`, the body,
and the counter advance). -/
lemma train_loop_exit_trunc (cfg : TrainConfig) (e : ℕ)
    (he : cfg.exitStage = some (e : ℤ)) :
    ∀ (remaining iter : ℕ) (nap : ℤ) (evs : List Event),
      iter ≤ e → e < iter + remaining →
      train_loop cfg iter remaining nap evs
        = { train_loop (noExit cfg) iter (e - iter) nap evs with
            earlyExit := true }
  | 0, iter, nap, evs, hle, hlt => absurd hlt (by omega)
  | remaining + 1, iter, nap, evs, hle, hlt => by
    by_cases heq : iter = e
    · subst heq
      rw [train_loop, if_pos he]
      rw [show iter - iter = 0 from by omega]
      rfl
    · have hlt' : iter < e := lt_of_le_of_ne hle heq
      rw [train_loop, if_neg (by rw [he]; simp; omega)]
      rw [train_loop_exit_trunc cfg e he remaining (iter + 1) _ _
        (by omega) (by omega)]
      rw [show e - iter = (e - (iter + 1)) + 1 from by omega]
      rw [show train_loop (noExit cfg) iter ((e - (iter + 1)) + 1) nap evs
          = train_loop (noExit cfg) (iter + 1) (e - (iter + 1))
              (nap + current_num_jobs cfg.numJobsInitial cfg.numJobsFinal
                iter cfg.numIters)
              (if cfg.stage ≤ (iter : ℤ) then
                 evs ++ iter_body_events cfg iter nap
               else evs)
        from by rw [train_loop, if_neg (by simp [noExit])]; rfl]

/-- C3 fails on the code as stated: with `startStage = 5` and a single
iteration (index 0, which is therefore skipped), the run performs no
external call at all, yet the archives-processed counter still advances
from 0 to 1, because the `num_archives_processed += current_num_jobs`
statement sits outside the stage guard (line 453). -/
theorem claim_C3_counterexample :
    (train_run
        { numJobsInitial := 1, numJobsFinal := 1, numIters := 1, stage := 5,
          exitStage := none, cleanup := false, email := false,
          includeLogSoftmax := false, shrinkValue := 1,
          reportAt := fun _ => false, doShrink := fun _ => false }).events
        = []
      ∧ (train_run
          { numJobsInitial := 1, numJobsFinal := 1, numIters := 1, stage := 5,
            exitStage := none, cleanup := false, email := false,
            includeLogSoftmax := false, shrinkValue := 1,
            reportAt := fun _ => false,
            doShrink := fun _ => false }).archivesProcessed ≠ 0 := by
  rw [show (train_run
      { numJobsInitial := 1, numJobsFinal := 1, numIters := 1, stage := 5,
        exitStage := none, cleanup := false, email := false,
        includeLogSoftmax := false, shrinkValue := 1,
        reportAt := fun _ => false, doShrink := fun _ => false })
      = ⟨1, [], false⟩ from by
    simp [train_run, train_loop, post_loop_events, current_num_jobs_one_one]]
  exact ⟨rfl, by decide⟩

/-- C3 amended: an iteration with index below `startStage` is skipped
without any external side effect — no training dispatch, no checkpoint
retirement, no report for it — but the run's archives-processed counter
is NOT left unchanged for it: the counter still advances by
`currentNumJobs`, so after an exit-free loop it equals the sum of the
interpolated job counts of all `numIters` iterations, skipped or not. -/
theorem claim_C3_amended (cfg : TrainConfig) (i : ℕ)
    (hi : (i : ℤ) < cfg.stage) :
    (∀ jn nap sv,
        Event.trainOneIteration i jn nap sv ∉ (train_run cfg).events)
      ∧ Event.sendReport i ∉ (train_run cfg).events
      ∧ Event.removeModel ((i : ℤ) - 2) ∉ (train_run cfg).events
      ∧ (cfg.exitStage = none →
          (train_run cfg).archivesProcessed
            = jobs_sum cfg.numJobsInitial cfg.numJobsFinal cfg.numIters
                cfg.numIters) := by
  refine ⟨?_, ?_, ?_, ?_⟩
  · intro jn nap sv hmem
    rcases train_run_events_ok cfg _ hmem with hok | hpost
    · exact absurd hok.1 (not_le.2 hi)
    · rcases (mem_post_loop_events cfg _).1 hpost with ⟨h, _⟩ | ⟨h, _⟩ | ⟨h, _⟩
        <;> exact Event.noConfusion h
  · intro hmem
    rcases train_run_events_ok cfg _ hmem with hok | hpost
    · exact absurd hok.1 (not_le.2 hi)
    · rcases (mem_post_loop_events cfg _).1 hpost with ⟨h, _⟩ | ⟨h, _⟩ | ⟨h, _⟩
        <;> exact Event.noConfusion h
  · intro hmem
    rcases train_run_events_ok cfg _ hmem with hok | hpost
    · rcases hok with ⟨-, j, hj, hjk⟩
      have : j = i := by omega
      omega
    · rcases (mem_post_loop_events cfg _).1 hpost with ⟨h, _⟩ | ⟨h, _⟩ | ⟨h, _⟩
        <;> exact Event.noConfusion h
  · intro hne
    unfold train_run
    rw [if_neg (by rw [train_loop_earlyExit_false cfg hne]; exact
      Bool.false_ne_true)]
    rw [train_loop_archives cfg hne cfg.numIters 0 0 []]
    simp [jobs_sum]

/-- Witness for `claim_C3_amended`: with `startStage = 5` and one
iteration, iteration 0 is skipped, sends no report, and the counter still
ends at the full interpolated sum. -/
theorem claim_C3_amended_witness :
    Event.sendReport 0 ∉ (train_run
        { numJobsInitial := 1, numJobsFinal := 1, numIters := 1, stage := 5,
          exitStage := none, cleanup := false, email := false,
          includeLogSoftmax := false, shrinkValue := 1,
          reportAt := fun _ => false, doShrink := fun _ => false }).events
      ∧ (train_run
          { numJobsInitial := 1, numJobsFinal := 1, numIters := 1, stage := 5,
            exitStage := none, cleanup := false, email := false,
            includeLogSoftmax := false, shrinkValue := 1,
            reportAt := fun _ => false,
            doShrink := fun _ => false }).archivesProcessed
        = jobs_sum 1 1 1 1 :=
  ⟨(claim_C3_amended _ 0 (by decide)).2.1,
   (claim_C3_amended _ 0 (by decide)).2.2.2 rfl⟩

/-- C4: when `--exit-stage` names an iteration index `e` below `numIters`
(so the loop reaches it), the run is exactly the exit-free run truncated
to iterations `0..e-1` with the early-return flag set — iteration `e`
contributes no training call, no cleanup, no report and no counter
advance, and nothing after the loop runs either; the counter ends at the
sum of the job counts of iterations `0..e-1`. -/
theorem claim_C4 (cfg : TrainConfig) (e : ℕ)
    (he : cfg.exitStage = some (e : ℤ)) (hlt : e < cfg.numIters) :
    train_run cfg
      = { archivesProcessed :=
            jobs_sum cfg.numJobsInitial cfg.numJobsFinal cfg.numIters e,
          events := (train_loop (noExit cfg) 0 e 0 []).events,
          earlyExit := true } := by
  unfold train_run
  rw [train_loop_exit_trunc cfg e he cfg.numIters 0 0 [] (by omega)
    (by omega)]
  rw [if_pos rfl]
  rw [show e - 0 = e from by omega]
  have harch := train_loop_archives (noExit cfg) rfl e 0 0 []
  have hfields : (noExit cfg).numJobsInitial = cfg.numJobsInitial
      ∧ (noExit cfg).numJobsFinal = cfg.numJobsFinal
      ∧ (noExit cfg).numIters = cfg.numIters := ⟨rfl, rfl, rfl⟩
  rw [hfields.1, hfields.2.1, hfields.2.2] at harch
  rw [show (0 : ℕ) + e = e from by omega] at harch
  simp only [jobs_sum] at harch
  cases hres : train_loop (noExit cfg) 0 e 0 []
  rw [hres] at harch
  simp at harch
  simp [harch]

/-- Witness for `claim_C4`: `--exit-stage 0` with one iteration stops the
run before anything happens. -/
theorem claim_C4_witness :
    train_run
        { numJobsInitial := 1, numJobsFinal := 1, numIters := 1, stage := 0,
          exitStage := some ((0 : ℕ) : ℤ), cleanup := false, email := false,
          includeLogSoftmax := false, shrinkValue := 1,
          reportAt := fun _ => false, doShrink := fun _ => false }
      = { archivesProcessed := jobs_sum 1 1 1 0,
          events := (train_loop (noExit
            { numJobsInitial := 1, numJobsFinal := 1, numIters := 1,
              stage := 0, exitStage := some ((0 : ℕ) : ℤ), cleanup := false,
              email := false, includeLogSoftmax := false, shrinkValue := 1,
              reportAt := fun _ => false, doShrink := fun _ => false })
            0 0 0 []).events,
          earlyExit := true } :=
  claim_C4 _ 0 rfl (by decide)

/-- Without an exit stage, the run's events are the loop's events followed
by the post-loop block. -/
lemma train_run_events_no_exit (cfg : TrainConfig)
    (hne : cfg.exitStage = none) :
    (train_run cfg).events
      = (train_loop cfg 0 cfg.numIters 0 []).events
          ++ post_loop_events cfg := by
  unfold train_run
  rw [if_neg (by
    rw [train_loop_earlyExit_false cfg hne]
    exact Bool.false_ne_true)]

/-- C7 fails on the code as stated: with one iteration, `startStage = 3 =
numIters + 2` (past every phase), cleanup enabled and a log-softmax
output, the model-combination and prior-estimation phases are indeed
skipped, but the cleanup phase still runs — the `if args.cleanup:` block
at line 475 has no stage test, so no `startStage` value can skip it. -/
theorem claim_C7_counterexample :
    Event.cleanNnetDir ∈ (train_run
        { numJobsInitial := 1, numJobsFinal := 1, numIters := 1, stage := 3,
          exitStage := none, cleanup := true, email := false,
          includeLogSoftmax := true, shrinkValue := 1,
          reportAt := fun _ => false, doShrink := fun _ => false }).events
      ∧ Event.combineModels ∉ (train_run
          { numJobsInitial := 1, numJobsFinal := 1, numIters := 1, stage := 3,
            exitStage := none, cleanup := true, email := false,
            includeLogSoftmax := true, shrinkValue := 1,
            reportAt := fun _ => false, doShrink := fun _ => false }).events
      ∧ Event.computeAveragePosterior ∉ (train_run
          { numJobsInitial := 1, numJobsFinal := 1, numIters := 1, stage := 3,
            exitStage := none, cleanup := true, email := false,
            includeLogSoftmax := true, shrinkValue := 1,
            reportAt := fun _ => false, doShrink := fun _ => false }).events := by
  rw [show (train_run
      { numJobsInitial := 1, numJobsFinal := 1, numIters := 1, stage := 3,
        exitStage := none, cleanup := true, email := false,
        includeLogSoftmax := true, shrinkValue := 1,
        reportAt := fun _ => false, doShrink := fun _ => false })
      = ⟨1, [Event.cleanNnetDir], false⟩ from by
    simp [train_run, train_loop, post_loop_events, current_num_jobs_one_one]]
  refine ⟨List.mem_singleton.2 rfl, ?_, ?_⟩ <;>
    · intro h
      rcases List.mem_singleton.1 h with h'
      exact Event.noConfusion h'

/-- C7 amended: in an exit-free run, the combination phase runs iff
`startStage ≤ numIters` and the prior-estimation phase runs iff the
network has a log-softmax output and `startStage ≤ numIters + 1` (each
thus individually skippable by `startStage`), but the cleanup phase runs
iff cleanup is enabled, regardless of `startStage`. -/
theorem claim_C7_amended (cfg : TrainConfig) (hne : cfg.exitStage = none) :
    (Event.combineModels ∈ (train_run cfg).events
        ↔ cfg.stage ≤ (cfg.numIters : ℤ))
      ∧ (Event.computeAveragePosterior ∈ (train_run cfg).events
          ↔ (cfg.includeLogSoftmax = true
             ∧ cfg.stage ≤ (cfg.numIters : ℤ) + 1))
      ∧ (Event.cleanNnetDir ∈ (train_run cfg).events
          ↔ cfg.cleanup = true) := by
  have hsplit := train_run_events_no_exit cfg hne
  refine ⟨⟨?_, ?_⟩, ⟨?_, ?_⟩, ⟨?_, ?_⟩⟩
  · intro hmem
    rcases train_run_events_ok cfg _ hmem with hok | hpost
    · exact absurd hok (by unfold loop_event_ok; exact not_false)
    · rcases (mem_post_loop_events cfg _).1 hpost with ⟨-, h⟩ | ⟨h, -⟩ | ⟨h, -⟩
      · exact h
      · exact Event.noConfusion h
      · exact Event.noConfusion h
  · intro hc
    rw [hsplit]
    exact List.mem_append.2 (Or.inr
      ((mem_post_loop_events cfg _).2 (Or.inl ⟨rfl, hc⟩)))
  · intro hmem
    rcases train_run_events_ok cfg _ hmem with hok | hpost
    · exact absurd hok (by unfold loop_event_ok; exact not_false)
    · rcases (mem_post_loop_events cfg _).1 hpost with ⟨h, -⟩ | ⟨-, h⟩ | ⟨h, -⟩
      · exact Event.noConfusion h
      · exact h
      · exact Event.noConfusion h
  · intro hc
    rw [hsplit]
    exact List.mem_append.2 (Or.inr
      ((mem_post_loop_events cfg _).2 (Or.inr (Or.inl ⟨rfl, hc⟩))))
  · intro hmem
    rcases train_run_events_ok cfg _ hmem with hok | hpost
    · exact absurd hok (by unfold loop_event_ok; exact not_false)
    · rcases (mem_post_loop_events cfg _).1 hpost with ⟨h, -⟩ | ⟨h, -⟩ | ⟨-, h⟩
      · exact Event.noConfusion h
      · exact Event.noConfusion h
      · exact h
  · intro hc
    rw [hsplit]
    exact List.mem_append.2 (Or.inr
      ((mem_post_loop_events cfg _).2 (Or.inr (Or.inr ⟨rfl, hc⟩))))

/-- Witness for `claim_C7_amended` at a concrete exit-free configuration
with `startStage = 0`, one iteration, cleanup disabled and no log-softmax
output. -/
theorem claim_C7_amended_witness :
    (Event.combineModels ∈ (train_run
        { numJobsInitial := 1, numJobsFinal := 1, numIters := 1, stage := 0,
          exitStage := none, cleanup := false, email := false,
          includeLogSoftmax := false, shrinkValue := 1,
          reportAt := fun _ => false, doShrink := fun _ => false }).events
        ↔ (0 : ℤ) ≤ ((1 : ℕ) : ℤ))
      ∧ (Event.computeAveragePosterior ∈ (train_run
          { numJobsInitial := 1, numJobsFinal := 1, numIters := 1, stage := 0,
            exitStage := none, cleanup := false, email := false,
            includeLogSoftmax := false, shrinkValue := 1,
            reportAt := fun _ => false, doShrink := fun _ => false }).events
          ↔ (false = true ∧ (0 : ℤ) ≤ ((1 : ℕ) : ℤ) + 1))
      ∧ (Event.cleanNnetDir ∈ (train_run
          { numJobsInitial := 1, numJobsFinal := 1, numIters := 1, stage := 0,
            exitStage := none, cleanup := false, email := false,
            includeLogSoftmax := false, shrinkValue := 1,
            reportAt := fun _ => false, doShrink := fun _ => false }).events
          ↔ false = true) :=
  claim_C7_amended _ rfl

/-- C10: in an exit-free run, after the loop has completed any `k ≤
numIters` iterations the archives-processed counter equals the sum of the
interpolated job counts of iterations `0..k-1`, a value independent of
`startStage`; and every training dispatch the run makes at iteration `i`
receives exactly that stage-independent cumulative count (from which the
learning-rate and dropout progress fractions are computed) and the
interpolated job count for `i`.  A resumed run therefore feeds the
trainer the same progress values as an uninterrupted one. -/
theorem claim_C10 (cfg : TrainConfig) (hne : cfg.exitStage = none) (k : ℕ)
    (hk : k ≤ cfg.numIters) :
    (train_loop cfg 0 k 0 []).archivesProcessed
        = jobs_sum cfg.numJobsInitial cfg.numJobsFinal cfg.numIters k
      ∧ (∀ s : ℤ,
          (train_loop { cfg with stage := s } 0 k 0 []).archivesProcessed
            = (train_loop cfg 0 k 0 []).archivesProcessed)
      ∧ (∀ i jn nap sv,
          Event.trainOneIteration i jn nap sv ∈ (train_run cfg).events →
            nap = jobs_sum cfg.numJobsInitial cfg.numJobsFinal cfg.numIters i
            ∧ jn = current_num_jobs cfg.numJobsInitial cfg.numJobsFinal i
                cfg.numIters) := by
  refine ⟨?_, ?_, ?_⟩
  · rw [train_loop_archives cfg hne k 0 0 []]
    simp [jobs_sum]
  · intro s
    rw [train_loop_archives cfg hne k 0 0 [],
      train_loop_archives { cfg with stage := s } hne k 0 0 []]
  · intro i jn nap sv hmem
    rcases train_run_events_ok cfg _ hmem with hok | hpost
    · exact ⟨hok.2.2.1, hok.2.1⟩
    · rcases (mem_post_loop_events cfg _).1 hpost with ⟨h, -⟩ | ⟨h, -⟩ | ⟨h, -⟩
        <;> exact Event.noConfusion h

/-- Witness for `claim_C10` with one iteration: the counter after it is
the interpolated sum. -/
theorem claim_C10_witness :
    (train_loop
        { numJobsInitial := 1, numJobsFinal := 1, numIters := 1, stage := 0,
          exitStage := none, cleanup := false, email := false,
          includeLogSoftmax := false, shrinkValue := 1,
          reportAt := fun _ => false, doShrink := fun _ => false }
        0 1 0 []).archivesProcessed
      = jobs_sum 1 1 1 1 :=
  (claim_C10 _ rfl 1 (by decide)).1

end TrainRawRnn
